import Mathlib

/-!
Verification development for the clixon-controller CLI core
(`src/controller_cli.c`, `src/controller_device_handle.c`).

The C sources are shallowly embedded:
* clixon XML trees (`cxobj`) become the inductive `Cxobj`; the external
  library comparator `xml_tree_equal` (equal ⟷ returns 0) is modelled as
  structural equality on `Cxobj`;
* C strings become `List Char` (assumed NUL-free) or `String`;
* the external backend RPCs (`clicon_rpc_get2`, `rpc_get_yanglib_mount_match`),
  the external XPath engine (`xpath_first` on fetched trees), and the external
  grammar generator (`yang2cli_yspec` output) are oracle parameters;
* the process-global recursion counter of `controller_cli_yang_mount` and the
  device-handle list are threaded explicitly as state;
* fallible code returns `Except`/an `Int` return value next to the new state.
-/

/-! ## XML model (clixon `cxobj`)

An element node has a name and children; body (text) and attribute nodes are
leaves.  Namespaces and xmlns attributes are not modelled (no verified claim
depends on them). -/

inductive Cxobj : Type where
  | elem (name : String) (children : List Cxobj)
  | body (value : String)
  | attr (aname : String) (avalue : String)

mutual
def cxDecEq : (a b : Cxobj) → Decidable (a = b)
  | .elem n1 cs1, .elem n2 cs2 =>
    match String.decEq n1 n2, cxDecEqList cs1 cs2 with
    | isTrue h1, isTrue h2 => isTrue (by rw [h1, h2])
    | isFalse h1, _ => isFalse (fun h => by cases h; exact h1 rfl)
    | _, isFalse h2 => isFalse (fun h => by cases h; exact h2 rfl)
  | .elem _ _, .body _ => isFalse nofun
  | .elem _ _, .attr _ _ => isFalse nofun
  | .body _, .elem _ _ => isFalse nofun
  | .body v1, .body v2 =>
    match String.decEq v1 v2 with
    | isTrue h1 => isTrue (by rw [h1])
    | isFalse h1 => isFalse (fun h => by cases h; exact h1 rfl)
  | .body _, .attr _ _ => isFalse nofun
  | .attr _ _, .elem _ _ => isFalse nofun
  | .attr _ _, .body _ => isFalse nofun
  | .attr n1 v1, .attr n2 v2 =>
    match String.decEq n1 n2, String.decEq v1 v2 with
    | isTrue h1, isTrue h2 => isTrue (by rw [h1, h2])
    | isFalse h1, _ => isFalse (fun h => by cases h; exact h1 rfl)
    | _, isFalse h2 => isFalse (fun h => by cases h; exact h2 rfl)
def cxDecEqList : (as bs : List Cxobj) → Decidable (as = bs)
  | [], [] => isTrue rfl
  | [], _ :: _ => isFalse nofun
  | _ :: _, [] => isFalse nofun
  | a :: as, b :: bs =>
    match cxDecEq a b, cxDecEqList as bs with
    | isTrue h1, isTrue h2 => isTrue (by rw [h1, h2])
    | isFalse h1, _ => isFalse (fun h => by cases h; exact h1 rfl)
    | _, isFalse h2 => isFalse (fun h => by cases h; exact h2 rfl)
end

instance : DecidableEq Cxobj := cxDecEq

/-- Children of a node (leaves have none). -/
def Cxobj.childList : Cxobj → List Cxobj
  | .elem _ cs => cs
  | _ => []

/-- Whether a node is an element (`CX_ELMNT`) with the given name. -/
def isElemNamed (nm : String) (c : Cxobj) : Bool :=
  match c with
  | .elem n _ => n == nm
  | _ => false

/-- Model of clixon `xml_find_type(x, NULL, nm, CX_ELMNT)`: first element child
of `x` with name `nm`. -/
def xml_find_type (x : Cxobj) (nm : String) : Option Cxobj :=
  x.childList.find? (isElemNamed nm)

/-- Model of clixon `xml_body(x)`: value of the first body child, if any. -/
def xml_body (x : Cxobj) : Option String :=
  x.childList.findSome? (fun c => match c with | .body v => some v | _ => none)

/-- Model of clixon `xml_find_body(x, nm)`: body of the first element child
named `nm`. -/
def xml_find_body (x : Cxobj) (nm : String) : Option String :=
  (xml_find_type x nm).bind xml_body

/-! ## C-string helpers (`List Char`, assumed NUL-free) -/

/-- Model of `strncmp(a, b, n) == 0` for NUL-free C strings: the first `n`
bytes agree, where a string shorter than `n` contributes its terminating NUL. -/
def strncmpZ : List Char → List Char → Nat → Bool
  | _, _, 0 => true
  | [], [], _ + 1 => true
  | [], _ :: _, _ + 1 => false
  | _ :: _, [], _ + 1 => false
  | a :: as, b :: bs, n + 1 => a == b && strncmpZ as bs n

/-- Model of `index(b, c)` restricted to the `?` delimiter: index of the first
`?` character, if any. -/
def indexOfQ : List Char → Option Nat
  | [] => none
  | c :: cs => if c = '?' then some 0 else (indexOfQ cs).map (· + 1)

/-- Model of `strstr(s, t)`: the suffix of `s` starting at the first occurrence
of `t`, if any. -/
def strstr : List Char → List Char → Option (List Char)
  | [], t => if t.isEmpty then some [] else none
  | a :: s2, t => if t.isPrefixOf (a :: s2) then some (a :: s2) else strstr s2 t

/-- Model of glob matching `fnmatch(p, s, 0) == 0` for patterns built from
literal characters, `?` (one char) and `*` (any sequence); character classes
and escapes are not used by the embedded code. -/
def fnmatchB : List Char → List Char → Bool
  | [], s => s.isEmpty
  | '*' :: p, s => s.tails.any (fun t => fnmatchB p t)
  | '?' :: p, s =>
    match s with
    | [] => false
    | _ :: s2 => fnmatchB p s2
  | c :: p, s =>
    match s with
    | [] => false
    | d :: s2 => c == d && fnmatchB p s2

/-! ## Device handle (`struct controller_device_handle`)

Only the fields the verified claims touch are carried; the remaining fields
(sockets, framing state, timestamps, outbound slots, …) do not influence the
embedded operations.  The `cdh_magic` sanity word is replaced by type identity. -/

/-- Connection states (`conn_state`, declared in `controller_device_state.h`,
used by the source as `CS_CLOSED` etc.). -/
inductive ConnState : Type where
  | CS_CLOSED
  | CS_CONNECTING
  | CS_SCHEMA_LIST
  | CS_SCHEMA_ONE
  | CS_OPEN_SYNC
  | CS_OPEN
  | CS_WRESP
  | CS_CLOSING
deriving DecidableEq

structure ControllerDeviceHandle : Type where
  cdh_name : String
  cdh_conn_state : ConnState
  cdh_msg_id : Nat
  cdh_tid : Nat
  cdh_xcaps : Option Cxobj
  cdh_yang_lib : Option Cxobj
  cdh_logmsg : Option String
deriving DecidableEq

/-- Model of `device_handle_new` (list insertion aside): fresh handle in
`CS_CLOSED` with zero message-id and transaction-id. -/
def device_handle_new (name : String) : ControllerDeviceHandle :=
  { cdh_name := name
    cdh_conn_state := .CS_CLOSED
    cdh_msg_id := 0
    cdh_tid := 0
    cdh_xcaps := none
    cdh_yang_lib := none
    cdh_logmsg := none }

/-! ## Device handle store

The source threads handles through an intrusive circular list headed at the
clixon handle's "client-list" pointer; the embedding carries that list
explicitly.  Pointer identity is modelled by value equality (the claims that
use removal assume pairwise-distinct names, under which the two coincide). -/

/-- Model of `device_handle_find`: linear scan by `strcmp` on the name. -/
def device_handle_find (store : List ControllerDeviceHandle) (name : String) :
    Option ControllerDeviceHandle :=
  store.find? (fun c => c.cdh_name == name)

/-- Model of `device_handle_free`: remove the first list entry that is the
given handle (pointer comparison `cdh == c` in the source). -/
def device_handle_free (store : List ControllerDeviceHandle)
    (dh : ControllerDeviceHandle) : List ControllerDeviceHandle :=
  match store with
  | [] => []
  | c :: cs => if dh = c then cs else c :: device_handle_free cs dh

/-! ## Capability lookup -/

/-- Children of the stored capabilities tree (`cdh_xcaps`); a NULL tree has no
children to iterate. -/
def xcapsChildren (dh : ControllerDeviceHandle) : List Cxobj :=
  match dh.cdh_xcaps with
  | some x => x.childList
  | none => []

/-- Match of one stored capability body `b` against the queried `name`,
as in the loop body of `device_handle_capabilities_find`: if `b` contains a
`?`, compare with `strncmp(name, b, bi - b)`; otherwise compare with `strcmp`. -/
def capEntryMatch (name b : String) : Bool :=
  match indexOfQ b.toList with
  | some k => strncmpZ name.toList b.toList k
  | none => name == b

/-- Model of `device_handle_capabilities_find`: scan the capability children;
return 1 on the first match, else 0.  A child without a body is skipped (in C
this would pass NULL to `index`, which is undefined; no capability entry is
body-less). -/
def device_handle_capabilities_find (dh : ControllerDeviceHandle)
    (name : String) : Nat :=
  if (xcapsChildren dh).any (fun x =>
      match xml_body x with
      | some b => capEntryMatch name b
      | none => false)
  then 1 else 0

/-- Capability bodies of a handle, for stating membership hypotheses. -/
def capBodies (dh : ControllerDeviceHandle) : List String :=
  (xcapsChildren dh).filterMap xml_body

/-! ## Schema inventory: Set -/

/-- Model of `device_handle_yang_lib_set`.  The source sanity-checks a non-NULL
argument with `assert(xml_find_type(xylib, NULL, "module-set", CX_ELMNT))`;
the assertion firing (no module-set top level) is modelled as `Except.error`.
Otherwise the stored inventory is freed and replaced by the argument
(ownership transfer), returning 0. -/
def device_handle_yang_lib_set (cdh : ControllerDeviceHandle)
    (xylib : Option Cxobj) : Except Unit (ControllerDeviceHandle × Int) :=
  match xylib with
  | some x =>
    if (xml_find_type x "module-set").isSome then
      .ok ({ cdh with cdh_yang_lib := some x }, 0)
    else
      .error ()
  | none => .ok ({ cdh with cdh_yang_lib := none }, 0)

/-! ## Schema inventory: Append (merge)

`device_handle_yang_lib_append` merges the module-set of the argument into the
stored one: per `module` child compared by its `name` body, a missing module is
deep-copied in (`xml_dup` + `xml_addsub`, appending), a tree-equal one is left
alone, a differing one has its children replaced (`xml_rm_children` +
`xml_copy`, which in value terms makes the stored slot equal to the argument
module). -/

/-- Whether `c` is a `module` element whose first `name` child has body `nm`
(the shape matched by `xpath_first(xms0, NULL, "module[name='%s']", nm)`). -/
def isModNamed (nm : String) (c : Cxobj) : Bool :=
  isElemNamed "module" c && (xml_find_body c "name" == some nm)

/-- The merge key of an argument child: its `name` body if it is a `module`
element with one, else `none` (such children are skipped by the loop). -/
def nameOfModule (c : Cxobj) : Option String :=
  if isElemNamed "module" c then xml_find_body c "name" else none

/-- Whether the stored module-set children contain a module named `nm`. -/
def hasMod (nm : String) (cs : List Cxobj) : Bool :=
  cs.any (isModNamed nm)

/-- Replace the first module named `nm` by `xm1`; a tree-equal stored module is
left in place (the source's no-op branch), which is the same list. -/
def replFirst (nm : String) (xm1 : Cxobj) : List Cxobj → List Cxobj
  | [] => []
  | c :: cs =>
    if isModNamed nm c then (if c = xm1 then c else xm1) :: cs
    else c :: replFirst nm xm1 cs

/-- One iteration of the merge loop of `device_handle_yang_lib_append` for the
argument child `xm1` over the stored module-set children `cs`. -/
def merge1 (cs : List Cxobj) (xm1 : Cxobj) : List Cxobj :=
  match nameOfModule xm1 with
  | none => cs
  | some nm => if hasMod nm cs then replFirst nm xm1 cs else cs ++ [xm1]

/-- The merged module-set: `xms0` with the whole argument child list folded in. -/
def mergedModset (xms0 xms1 : Cxobj) : Cxobj :=
  match xms0 with
  | .elem n cs => .elem n (List.foldl merge1 cs xms1.childList)
  | o => o

/-- Replace the first element child named `nm` by `y` (the stored tree after
the in-place mutation of its module-set child). -/
def replFirstChildNamed (nm : String) (y : Cxobj) : List Cxobj → List Cxobj
  | [] => []
  | c :: cs => if isElemNamed nm c then y :: cs else c :: replFirstChildNamed nm y cs

/-- The stored yang-library tree with its first `module-set` child replaced. -/
def replaceModSet (st0 y : Cxobj) : Cxobj :=
  match st0 with
  | .elem n cs => .elem n (replFirstChildNamed "module-set" y cs)
  | o => o

/-- Model of `device_handle_yang_lib_append`: sanity-check both top levels for
a `module-set` child (error −1 otherwise, the argument being freed); store the
argument when nothing is stored; no-op when the two module-sets are tree-equal;
otherwise merge per module. -/
def device_handle_yang_lib_append (cdh : ControllerDeviceHandle)
    (xylib : Option Cxobj) : Int × ControllerDeviceHandle :=
  match xylib with
  | none =>
    match cdh.cdh_yang_lib with
    | some _ => (0, cdh)
    | none => (0, { cdh with cdh_yang_lib := none })
  | some xl =>
    match xml_find_type xl "module-set" with
    | none => (-1, cdh)
    | some xms1 =>
      match cdh.cdh_yang_lib with
      | none => (0, { cdh with cdh_yang_lib := some xl })
      | some st0 =>
        match xml_find_type st0 "module-set" with
        | none => (-1, cdh)
        | some xms0 =>
          if xms0 = xms1 then (0, cdh)
          else (0, { cdh with cdh_yang_lib := some (replaceModSet st0 (mergedModset xms0 xms1)) })

/-! ### Auxiliary functions for reasoning about the merge -/

/-- Index of the first module named `nm` among stored children. -/
def idxMod (nm : String) : List Cxobj → Option Nat
  | [] => none
  | c :: cs => if isModNamed nm c then some 0 else (idxMod nm cs).map (· + 1)

/-- The last argument child with merge key `nm` (the final writer for that
module name). -/
def lastMod (nm : String) : List Cxobj → Option Cxobj
  | [] => none
  | x :: xs =>
    match lastMod nm xs with
    | some y => some y
    | none => if nameOfModule x = some nm then some x else none

/-! ### Basic lemmas about the merge helpers -/

/-- A node is a module of at most one name: the merge key is functional. -/
theorem isModNamed_unique {nm nm2 : String} {c : Cxobj}
    (h1 : isModNamed nm c = true) (h2 : isModNamed nm2 c = true) : nm2 = nm := by
  simp only [isModNamed, Bool.and_eq_true, beq_iff_eq] at h1 h2
  obtain ⟨-, e1⟩ := h1
  obtain ⟨-, e2⟩ := h2
  rw [e1] at e2
  exact (Option.some.inj e2).symm

theorem isModNamed_of_nameOfModule {nm : String} {c : Cxobj}
    (h : nameOfModule c = some nm) : isModNamed nm c = true := by
  unfold nameOfModule at h
  by_cases he : isElemNamed "module" c = true
  · rw [if_pos he] at h
    simp [isModNamed, he, h]
  · rw [if_neg he] at h
    exact absurd h (by simp)

theorem nameOfModule_of_isModNamed {nm : String} {c : Cxobj}
    (h : isModNamed nm c = true) : nameOfModule c = some nm := by
  simp only [isModNamed, Bool.and_eq_true, beq_iff_eq] at h
  simp [nameOfModule, h.1, h.2]

/-- Two modules with the same merge key answer every `isModNamed` query alike. -/
theorem isModNamed_profile {nm nm2 : String} {c x : Cxobj}
    (hc : isModNamed nm c = true) (hx : isModNamed nm x = true) :
    isModNamed nm2 c = isModNamed nm2 x := by
  by_cases h2 : nm2 = nm
  · subst h2; rw [hc, hx]
  · have c2 : isModNamed nm2 c = false := by
      cases hcb : isModNamed nm2 c
      · rfl
      · exact absurd (isModNamed_unique hc hcb) h2
    have x2 : isModNamed nm2 x = false := by
      cases hxb : isModNamed nm2 x
      · rfl
      · exact absurd (isModNamed_unique hx hxb) h2
    rw [c2, x2]

theorem hasMod_iff_idxMod {nm : String} (cs : List Cxobj) :
    hasMod nm cs = true ↔ (idxMod nm cs).isSome = true := by
  induction cs with
  | nil => simp [hasMod, idxMod]
  | cons c cs ih =>
    by_cases h : isModNamed nm c = true
    · simp [hasMod, idxMod, h]
    · simp only [hasMod, List.any_cons] at ih ⊢
      simp [idxMod, h, ih]

theorem idxMod_some {nm : String} {cs : List Cxobj} {i : Nat}
    (h : idxMod nm cs = some i) :
    ∃ c, cs[i]? = some c ∧ isModNamed nm c = true := by
  induction cs generalizing i with
  | nil => simp [idxMod] at h
  | cons a cs ih =>
    by_cases ha : isModNamed nm a = true
    · rw [idxMod, if_pos ha] at h
      obtain rfl := Option.some.inj h
      exact ⟨a, by simp, ha⟩
    · rw [idxMod, if_neg ha] at h
      rw [Option.map_eq_some'] at h
      obtain ⟨j, hj, rfl⟩ := h
      obtain ⟨c, hc, hm⟩ := ih hj
      exact ⟨c, by simpa using hc, hm⟩

theorem idxMod_lt_length {nm : String} {cs : List Cxobj} {i : Nat}
    (h : idxMod nm cs = some i) : i < cs.length := by
  obtain ⟨c, hc, -⟩ := idxMod_some h
  exact (List.getElem?_eq_some.mp hc).1

theorem if_eq_collapse {c xm : Cxobj} : (if c = xm then c else xm) = xm := by
  by_cases h : c = xm
  · simp [h]
  · simp [h]

theorem replFirst_cons_collapse {nm : String} {xm c : Cxobj} {cs : List Cxobj} :
    replFirst nm xm (c :: cs) =
      if isModNamed nm c then xm :: cs else c :: replFirst nm xm cs := by
  rw [replFirst, if_eq_collapse]

theorem replFirst_length {nm : String} {xm : Cxobj} (cs : List Cxobj) :
    (replFirst nm xm cs).length = cs.length := by
  induction cs with
  | nil => rfl
  | cons c cs ih =>
    rw [replFirst_cons_collapse]
    by_cases h : isModNamed nm c = true
    · simp [h]
    · simp [h, ih]

theorem replFirst_getElem_at {nm : String} {xm : Cxobj} {cs : List Cxobj} {i : Nat}
    (h : idxMod nm cs = some i) : (replFirst nm xm cs)[i]? = some xm := by
  induction cs generalizing i with
  | nil => simp [idxMod] at h
  | cons a cs ih =>
    rw [replFirst_cons_collapse]
    by_cases ha : isModNamed nm a = true
    · rw [idxMod, if_pos ha] at h
      obtain rfl := Option.some.inj h
      simp [ha]
    · rw [idxMod, if_neg ha] at h
      rw [Option.map_eq_some'] at h
      obtain ⟨j, hj, rfl⟩ := h
      simp [ha, ih hj]

theorem replFirst_getElem_ne {nm : String} {xm : Cxobj} {cs : List Cxobj} {i : Nat}
    (h : idxMod nm cs = some i) {j : Nat} (hj : j ≠ i) :
    (replFirst nm xm cs)[j]? = cs[j]? := by
  induction cs generalizing i j with
  | nil => simp [idxMod] at h
  | cons a cs ih =>
    rw [replFirst_cons_collapse]
    by_cases ha : isModNamed nm a = true
    · rw [idxMod, if_pos ha] at h
      obtain rfl := Option.some.inj h
      rw [if_pos ha]
      cases j with
      | zero => exact absurd rfl hj
      | succ k => simp
    · rw [idxMod, if_neg ha] at h
      rw [Option.map_eq_some'] at h
      obtain ⟨i2, hi2, rfl⟩ := h
      rw [if_neg ha]
      cases j with
      | zero => simp
      | succ k =>
        have : k ≠ i2 := by omega
        simp [ih hi2 this]

theorem replFirst_idxMod {nm : String} {xm : Cxobj} (hx : isModNamed nm xm = true)
    (nm2 : String) (cs : List Cxobj) :
    idxMod nm2 (replFirst nm xm cs) = idxMod nm2 cs := by
  induction cs with
  | nil => rfl
  | cons c cs ih =>
    rw [replFirst_cons_collapse]
    by_cases hc : isModNamed nm c = true
    · rw [if_pos hc]
      rw [idxMod, idxMod, isModNamed_profile hc hx]
    · rw [if_neg hc]
      rw [idxMod, idxMod, ih]

theorem idxMod_append_of_some {nm : String} {cs : List Cxobj} {i : Nat} (x : Cxobj)
    (h : idxMod nm cs = some i) : idxMod nm (cs ++ [x]) = some i := by
  induction cs generalizing i with
  | nil => simp [idxMod] at h
  | cons a cs ih =>
    by_cases ha : isModNamed nm a = true
    · rw [idxMod, if_pos ha] at h
      obtain rfl := Option.some.inj h
      simp [idxMod, ha]
    · rw [idxMod, if_neg ha] at h
      rw [Option.map_eq_some'] at h
      obtain ⟨j, hj, rfl⟩ := h
      rw [List.cons_append, idxMod, if_neg ha, ih hj]
      rfl

theorem idxMod_append_of_none {nm : String} {cs : List Cxobj} (x : Cxobj)
    (h : idxMod nm cs = none) :
    idxMod nm (cs ++ [x]) = if isModNamed nm x then some cs.length else none := by
  induction cs with
  | nil => simp [idxMod]
  | cons a cs ih =>
    by_cases ha : isModNamed nm a = true
    · rw [idxMod, if_pos ha] at h
      exact absurd h (by simp)
    · rw [idxMod, if_neg ha] at h
      rw [Option.map_eq_none'] at h
      rw [List.cons_append, idxMod, if_neg ha, ih h]
      by_cases hx : isModNamed nm x = true
      · simp [hx]
      · simp [hx]

theorem lastMod_concat (nm : String) (xs : List Cxobj) (x : Cxobj) :
    lastMod nm (xs ++ [x]) =
      if nameOfModule x = some nm then some x else lastMod nm xs := by
  induction xs with
  | nil => rfl
  | cons a xs ih =>
    rw [List.cons_append, lastMod, ih]
    by_cases hx : nameOfModule x = some nm
    · rw [if_pos hx, if_pos hx]
    · rw [if_neg hx, if_neg hx]
      rfl

theorem merge1_irrelevant {cs : List Cxobj} {x : Cxobj}
    (h : nameOfModule x = none) : merge1 cs x = cs := by
  rw [merge1, h]

theorem merge1_named {cs : List Cxobj} {x : Cxobj} {nm : String}
    (h : nameOfModule x = some nm) :
    merge1 cs x = if hasMod nm cs then replFirst nm x cs else cs ++ [x] := by
  rw [merge1, h]

theorem hasMod_merge1_mono {nm : String} {cs : List Cxobj} (xm : Cxobj)
    (h : hasMod nm cs = true) : hasMod nm (merge1 cs xm) = true := by
  cases hn : nameOfModule xm with
  | none => rw [merge1_irrelevant hn]; exact h
  | some nm2 =>
    rw [merge1_named hn]
    by_cases hm : hasMod nm2 cs = true
    · rw [if_pos hm]
      rw [hasMod_iff_idxMod] at h ⊢
      rw [replFirst_idxMod (isModNamed_of_nameOfModule hn)]
      exact h
    · rw [if_neg hm]
      rw [hasMod, List.any_append]
      rw [hasMod] at h
      simp [h]

theorem hasMod_merge1_self {cs : List Cxobj} {xm : Cxobj} {nm : String}
    (hn : nameOfModule xm = some nm) : hasMod nm (merge1 cs xm) = true := by
  rw [merge1_named hn]
  by_cases hm : hasMod nm cs = true
  · rw [if_pos hm]
    rw [hasMod_iff_idxMod] at hm ⊢
    rw [replFirst_idxMod (isModNamed_of_nameOfModule hn)]
    exact hm
  · rw [if_neg hm]
    rw [hasMod, List.any_append]
    simp [isModNamed_of_nameOfModule hn]

theorem hasMod_foldl_mono {nm : String} (xs : List Cxobj) :
    ∀ cs, hasMod nm cs = true → hasMod nm (List.foldl merge1 cs xs) = true := by
  induction xs with
  | nil => intro cs h; exact h
  | cons a xs ih =>
    intro cs h
    rw [List.foldl_cons]
    exact ih _ (hasMod_merge1_mono a h)

/-- After a merge pass, every module name written by the pass is present. -/
theorem foldl_merge1_hasMod {nm : String} (xs : List Cxobj) :
    ∀ cs (xm : Cxobj), xm ∈ xs → nameOfModule xm = some nm →
      hasMod nm (List.foldl merge1 cs xs) = true := by
  induction xs with
  | nil => intro cs xm h; exact absurd h (List.not_mem_nil xm)
  | cons a xs ih =>
    intro cs xm hmem hn
    rw [List.foldl_cons]
    rcases List.mem_cons.mp hmem with rfl | htl
    · exact hasMod_foldl_mono xs _ (hasMod_merge1_self hn)
    · exact ih _ xm htl hn

/-- After a merge pass, the slot of the first module named `nm` holds the last
argument module with that name (pass-1 characterization). -/
theorem foldl_merge1_lastVal (xs : List Cxobj) :
    ∀ (cs : List Cxobj) (nm : String) (i : Nat) (xm : Cxobj),
      lastMod nm xs = some xm →
      idxMod nm (List.foldl merge1 cs xs) = some i →
      (List.foldl merge1 cs xs)[i]? = some xm := by
  induction xs using List.reverseRecOn with
  | nil => intro cs nm i xm h; exact absurd h (by simp [lastMod])
  | append_singleton ys x ih =>
    intro cs nm i xm hlast hidx
    rw [List.foldl_append, List.foldl_cons, List.foldl_nil] at hidx ⊢
    rw [lastMod_concat] at hlast
    cases hn : nameOfModule x with
    | none =>
      rw [merge1_irrelevant hn] at hidx ⊢
      rw [if_neg (by rw [hn]; exact nofun)] at hlast
      exact ih cs nm i xm hlast hidx
    | some nm0 =>
      rw [merge1_named hn] at hidx ⊢
      by_cases hsame : nm = nm0
      · subst hsame
        rw [if_pos hn] at hlast
        obtain rfl := Option.some.inj hlast
        by_cases hm : hasMod nm (List.foldl merge1 cs ys) = true
        · rw [if_pos hm] at hidx ⊢
          rw [replFirst_idxMod (isModNamed_of_nameOfModule hn)] at hidx
          exact replFirst_getElem_at hidx
        · rw [if_neg hm] at hidx ⊢
          have hnone : idxMod nm (List.foldl merge1 cs ys) = none := by
            cases hq : idxMod nm (List.foldl merge1 cs ys) with
            | none => rfl
            | some j =>
              exact absurd ((hasMod_iff_idxMod _).mpr (by simp [hq])) hm
          rw [idxMod_append_of_none _ hnone,
              if_pos (isModNamed_of_nameOfModule hn)] at hidx
          obtain rfl := Option.some.inj hidx
          exact List.getElem?_concat_length _ _
      · have hcond : ¬ (nameOfModule x = some nm) := by
          rw [hn]
          intro hcon
          exact hsame (Option.some.inj hcon).symm
        rw [if_neg hcond] at hlast
        by_cases hm : hasMod nm0 (List.foldl merge1 cs ys) = true
        · rw [if_pos hm] at hidx ⊢
          rw [replFirst_idxMod (isModNamed_of_nameOfModule hn)] at hidx
          have hii := ih cs nm i xm hlast hidx
          have hm0 : (idxMod nm0 (List.foldl merge1 cs ys)).isSome = true :=
            (hasMod_iff_idxMod _).mp hm
          obtain ⟨i0, hi0⟩ := Option.isSome_iff_exists.mp hm0
          have hne : i ≠ i0 := by
            intro hcon
            subst hcon
            obtain ⟨c, hc, hcm⟩ := idxMod_some hidx
            obtain ⟨c0, hc0, hcm0⟩ := idxMod_some hi0
            rw [hc] at hc0
            obtain rfl := Option.some.inj hc0
            exact hsame (isModNamed_unique hcm0 hcm)
          rw [replFirst_getElem_ne hi0 hne]
          exact hii
        · rw [if_neg hm] at hidx ⊢
          have hxn : isModNamed nm x = false := by
            cases hb : isModNamed nm x
            · rfl
            · exact absurd (isModNamed_unique (isModNamed_of_nameOfModule hn) hb)
                (fun hcon => hsame hcon)
          cases hq : idxMod nm (List.foldl merge1 cs ys) with
          | none =>
            rw [idxMod_append_of_none _ hq, hxn] at hidx
            exact absurd hidx (by simp)
          | some j =>
            rw [idxMod_append_of_some _ hq] at hidx
            obtain rfl := Option.some.inj hidx
            have hlt := idxMod_lt_length hq
            rw [List.getElem?_append_left hlt]
            exact ih cs nm j xm hlast hq

/-- Pass-2 invariant: rerunning a merge pass over a state whose module slots
already hold the pass's final writes reproduces that state. -/
theorem foldl_merge1_fixed (xs : List Cxobj) :
    ∀ (cur cs1 : List Cxobj),
      (∀ (xm : Cxobj) (nm : String), xm ∈ xs → nameOfModule xm = some nm →
        (idxMod nm cs1).isSome = true) →
      (∀ nm, idxMod nm cur = idxMod nm cs1) →
      cur.length = cs1.length →
      (∀ (nm : String) (i : Nat) (xm : Cxobj), idxMod nm cs1 = some i →
        lastMod nm xs = some xm → cs1[i]? = some xm) →
      (∀ j, cur[j]? = cs1[j]? ∨
        ∃ nm, idxMod nm cs1 = some j ∧ (lastMod nm xs).isSome = true) →
      List.foldl merge1 cur xs = cs1 := by
  induction xs with
  | nil =>
    intro cur cs1 _ _ _ _ h4
    rw [List.foldl_nil]
    apply List.ext_getElem?
    intro j
    rcases h4 j with h | ⟨nm, _, hsome⟩
    · exact h
    · rw [lastMod] at hsome
      simp at hsome
  | cons x xs ih =>
    intro cur cs1 h0 h1 hlen h3 h4
    rw [List.foldl_cons]
    cases hn : nameOfModule x with
    | none =>
      rw [merge1_irrelevant hn]
      apply ih cur cs1
      · intro xm nm hm hname
        exact h0 xm nm (List.mem_cons_of_mem x hm) hname
      · exact h1
      · exact hlen
      · intro nm i xm hidx hl
        apply h3 nm i xm hidx
        rw [lastMod, hl]
      · intro j
        rcases h4 j with h | ⟨nm, hidx, hsome⟩
        · exact Or.inl h
        · right
          refine ⟨nm, hidx, ?_⟩
          rw [lastMod] at hsome
          cases hq : lastMod nm xs with
          | some y => simp
          | none =>
            rw [hq] at hsome
            simp [hn] at hsome
    | some nm0 =>
      have hx0 : isModNamed nm0 x = true := isModNamed_of_nameOfModule hn
      have hs0 : (idxMod nm0 cs1).isSome = true :=
        h0 x nm0 (List.mem_cons_self x xs) hn
      obtain ⟨i0, hi0⟩ := Option.isSome_iff_exists.mp hs0
      have hcur0 : idxMod nm0 cur = some i0 := by rw [h1]; exact hi0
      rw [merge1_named hn, if_pos ((hasMod_iff_idxMod cur).mpr (by simp [hcur0]))]
      apply ih (replFirst nm0 x cur) cs1
      · intro xm nm hm hname
        exact h0 xm nm (List.mem_cons_of_mem x hm) hname
      · intro nm
        rw [replFirst_idxMod hx0, h1]
      · rw [replFirst_length]
        exact hlen
      · intro nm i xm hidx hl
        apply h3 nm i xm hidx
        rw [lastMod, hl]
      · intro j
        by_cases hj : j = i0
        · subst hj
          have hval : (replFirst nm0 x cur)[j]? = some x := replFirst_getElem_at hcur0
          cases hq : lastMod nm0 xs with
          | some y =>
            right
            exact ⟨nm0, hi0, by simp [hq]⟩
          | none =>
            left
            have hfull : lastMod nm0 (x :: xs) = some x := by
              rw [lastMod, hq, if_pos hn]
            rw [hval, h3 nm0 j x hi0 hfull]
        · have hval : (replFirst nm0 x cur)[j]? = cur[j]? := replFirst_getElem_ne hcur0 hj
          rw [hval]
          rcases h4 j with h | ⟨nm, hidx, hsome⟩
          · exact Or.inl h
          · right
            refine ⟨nm, hidx, ?_⟩
            rw [lastMod] at hsome
            cases hq : lastMod nm xs with
            | some y => simp
            | none =>
              rw [hq] at hsome
              by_cases hnm : nameOfModule x = some nm
              · rw [hn] at hnm
                obtain rfl := Option.some.inj hnm
                rw [hi0] at hidx
                exact absurd (Option.some.inj hidx).symm hj
              · rw [if_neg hnm] at hsome
                simp at hsome

/-- Idempotence of the merge pass: folding the same argument children into an
already-merged state changes nothing. -/
theorem foldl_merge1_idem (cs xs : List Cxobj) :
    List.foldl merge1 (List.foldl merge1 cs xs) xs = List.foldl merge1 cs xs := by
  apply foldl_merge1_fixed
  · intro xm nm hm hname
    rw [← hasMod_iff_idxMod]
    exact foldl_merge1_hasMod xs cs xm hm hname
  · intro nm
    rfl
  · rfl
  · intro nm i xm hidx hl
    exact foldl_merge1_lastVal xs cs nm i xm hl hidx
  · intro j
    exact Or.inl rfl

theorem isElemNamed_elem {nm : String} {c : Cxobj} (h : isElemNamed nm c = true) :
    ∃ cs, c = .elem nm cs := by
  cases c with
  | elem n cs =>
    simp only [isElemNamed, beq_iff_eq] at h
    exact ⟨cs, by rw [h]⟩
  | body v => exact absurd h (by simp [isElemNamed])
  | attr a b => exact absurd h (by simp [isElemNamed])

theorem mergedModset_isElem {xms0 : Cxobj} (xms1 : Cxobj)
    (h : isElemNamed "module-set" xms0 = true) :
    isElemNamed "module-set" (mergedModset xms0 xms1) = true := by
  obtain ⟨cs, rfl⟩ := isElemNamed_elem h
  simp [mergedModset, isElemNamed]

theorem mergedModset_idem (xms0 xms1 : Cxobj) :
    mergedModset (mergedModset xms0 xms1) xms1 = mergedModset xms0 xms1 := by
  cases xms0 with
  | elem n cs => simp [mergedModset, Cxobj.childList, foldl_merge1_idem]
  | body v => rfl
  | attr a b => rfl

theorem replFirstChildNamed_find {nm : String} {y : Cxobj}
    (hy : isElemNamed nm y = true) :
    ∀ cs : List Cxobj, (cs.find? (isElemNamed nm)).isSome = true →
      (replFirstChildNamed nm y cs).find? (isElemNamed nm) = some y := by
  intro cs
  induction cs with
  | nil => intro h; simp [List.find?] at h
  | cons c cs ih =>
    intro h
    by_cases hc : isElemNamed nm c = true
    · rw [replFirstChildNamed, if_pos hc]
      exact List.find?_cons_of_pos _ hy
    · rw [replFirstChildNamed, if_neg hc]
      rw [List.find?_cons_of_neg _ (by simp [hc])]
      apply ih
      rw [List.find?_cons_of_neg _ (by simp [hc])] at h
      exact h

theorem replaceModSet_find {st0 xms0 y : Cxobj}
    (hfs : xml_find_type st0 "module-set" = some xms0)
    (hy : isElemNamed "module-set" y = true) :
    xml_find_type (replaceModSet st0 y) "module-set" = some y := by
  cases st0 with
  | elem n cs =>
    rw [replaceModSet]
    rw [xml_find_type, Cxobj.childList] at hfs ⊢
    exact replFirstChildNamed_find hy cs (by simp [hfs])
  | body v => exact absurd hfs (by simp [xml_find_type, Cxobj.childList])
  | attr a b => exact absurd hfs (by simp [xml_find_type, Cxobj.childList])

theorem replFirstChildNamed_idem {nm : String} {y : Cxobj}
    (hy : isElemNamed nm y = true) (cs : List Cxobj) :
    replFirstChildNamed nm y (replFirstChildNamed nm y cs) =
      replFirstChildNamed nm y cs := by
  induction cs with
  | nil => rfl
  | cons c cs ih =>
    by_cases hc : isElemNamed nm c = true
    · rw [replFirstChildNamed, if_pos hc, replFirstChildNamed, if_pos hy]
    · rw [replFirstChildNamed, if_neg hc, replFirstChildNamed, if_neg hc, ih]

theorem replaceModSet_idem {y : Cxobj} (hy : isElemNamed "module-set" y = true)
    (st0 : Cxobj) :
    replaceModSet (replaceModSet st0 y) y = replaceModSet st0 y := by
  cases st0 with
  | elem n cs => rw [replaceModSet, replaceModSet, replFirstChildNamed_idem hy]
  | body v => rfl
  | attr a b => rfl

/-- C7: for every device handle and every inventory with a `module-set` top
level, appending the same inventory twice leaves the same stored inventory as
appending it once (idempotence of `device_handle_yang_lib_append` modulo
content, under the per-module merge rule of the source). -/
theorem thm_C7_yang_lib_append_idempotent (cdh : ControllerDeviceHandle)
    (xl : Cxobj) (hms : (xml_find_type xl "module-set").isSome = true) :
    ((device_handle_yang_lib_append
        (device_handle_yang_lib_append cdh (some xl)).2 (some xl)).2).cdh_yang_lib =
      ((device_handle_yang_lib_append cdh (some xl)).2).cdh_yang_lib := by
  obtain ⟨xms1, hms1⟩ := Option.isSome_iff_exists.mp hms
  cases hst : cdh.cdh_yang_lib with
  | none => simp [device_handle_yang_lib_append, hms1, hst]
  | some st0 =>
    cases hfs : xml_find_type st0 "module-set" with
    | none => simp [device_handle_yang_lib_append, hms1, hst, hfs]
    | some xms0 =>
      by_cases heq : xms0 = xms1
      · simp [device_handle_yang_lib_append, hms1, hst, hfs, heq]
      · have hxms0 : isElemNamed "module-set" xms0 = true := List.find?_some hfs
        have hy : isElemNamed "module-set" (mergedModset xms0 xms1) = true :=
          mergedModset_isElem xms1 hxms0
        have hfind2 : xml_find_type (replaceModSet st0 (mergedModset xms0 xms1))
            "module-set" = some (mergedModset xms0 xms1) := replaceModSet_find hfs hy
        simp only [device_handle_yang_lib_append, hms1, hst, hfs, if_neg heq, hfind2]
        by_cases heq2 : mergedModset xms0 xms1 = xms1
        · simp [heq2]
        · simp [heq2, mergedModset_idem]
          exact replaceModSet_idem hy st0

/-! ## Concrete fixtures used by witnesses -/

/-- A yang-library tree whose top level lacks a `module-set` child. -/
def msBad : Cxobj := .elem "yang-library" [.elem "modules-state" []]

/-- A well-formed yang-library tree with a `module-set` top level. -/
def msGood : Cxobj :=
  .elem "yang-library"
    [.elem "module-set"
      [.elem "name" [.body "mount"],
       .elem "module"
         [.elem "name" [.body "modA"],
          .elem "revision" [.body "2024-01-01"],
          .elem "namespace" [.body "urn:a"]]]]

/-- A fresh handle fixture. -/
def dh0 : ControllerDeviceHandle := device_handle_new "d1"

/-- Witness for C7 at a concrete handle and inventory. -/
theorem thm_C7_witness :
    ((device_handle_yang_lib_append
        (device_handle_yang_lib_append dh0 (some msGood)).2 (some msGood)).2).cdh_yang_lib =
      ((device_handle_yang_lib_append dh0 (some msGood)).2).cdh_yang_lib :=
  thm_C7_yang_lib_append_idempotent dh0 msGood (by decide)

/-- C6: `device_handle_yang_lib_set` validates that the argument's top level
holds a `module-set` element: without one the assertion fails (no store
happens), with one the stored inventory is replaced by the argument
(ownership transfer) and 0 is returned. -/
theorem thm_C6_yang_lib_set_validates :
    (∀ (cdh : ControllerDeviceHandle) (x : Cxobj),
        xml_find_type x "module-set" = none →
        device_handle_yang_lib_set cdh (some x) = .error ()) ∧
    (∀ (cdh : ControllerDeviceHandle) (x : Cxobj),
        (xml_find_type x "module-set").isSome = true →
        device_handle_yang_lib_set cdh (some x) =
          .ok ({ cdh with cdh_yang_lib := some x }, 0)) := by
  constructor
  · intro cdh x h
    simp [device_handle_yang_lib_set, h]
  · intro cdh x h
    simp [device_handle_yang_lib_set, h]

/-- Witness for C6: a malformed inventory is rejected, a well-formed one is
stored. -/
theorem thm_C6_witness :
    device_handle_yang_lib_set dh0 (some msBad) = .error () ∧
    device_handle_yang_lib_set dh0 (some msGood) =
      .ok ({ dh0 with cdh_yang_lib := some msGood }, 0) :=
  ⟨thm_C6_yang_lib_set_validates.1 dh0 msBad (by decide),
   thm_C6_yang_lib_set_validates.2 dh0 msGood (by decide)⟩

/-! ## Capability lookup lemmas (C8, C10) -/

theorem indexOfQ_lt_length {l : List Char} {k : Nat} (h : indexOfQ l = some k) :
    k < l.length := by
  induction l generalizing k with
  | nil => exact absurd h (by simp [indexOfQ])
  | cons c cs ih =>
    by_cases hc : c = '?'
    · rw [indexOfQ, if_pos hc] at h
      obtain rfl := Option.some.inj h
      simp
    · rw [indexOfQ, if_neg hc] at h
      rw [Option.map_eq_some'] at h
      obtain ⟨j, hj, rfl⟩ := h
      have := ih hj
      simp
      omega

theorem strncmpZ_of_take_eq :
    ∀ (k : Nat) (a b : List Char), k ≤ a.length → k ≤ b.length →
      a.take k = b.take k → strncmpZ a b k = true := by
  intro k
  induction k with
  | zero =>
    intro a b _ _ _
    cases a <;> cases b <;> simp [strncmpZ]
  | succ n ih =>
    intro a b ha hb htake
    cases a with
    | nil => simp at ha
    | cons x as =>
      cases b with
      | nil => simp at hb
      | cons y bs =>
        simp only [List.take_succ_cons, List.cons.injEq] at htake
        rw [strncmpZ]
        simp only [Bool.and_eq_true, beq_iff_eq]
        refine ⟨htake.1, ?_⟩
        exact ih as bs (by simpa using ha) (by simpa using hb) htake.2

/-- C8: capability lookup compares a stored entry only up to its `?` delimiter
(when present): a set containing `urn:x:y?p=1` answers 1 for `urn:x:y`; and an
entry without `?` matches exactly the whole URI. -/
theorem thm_C8_capability_prefix_lookup :
    (∀ dh : ControllerDeviceHandle, "urn:x:y?p=1" ∈ capBodies dh →
        device_handle_capabilities_find dh "urn:x:y" = 1) ∧
    (∀ name b : String, indexOfQ b.toList = none →
        (capEntryMatch name b = true ↔ name = b)) := by
  constructor
  · intro dh hmem
    have hany : (xcapsChildren dh).any (fun x =>
        match xml_body x with
        | some b => capEntryMatch "urn:x:y" b
        | none => false) = true := by
      rw [List.any_eq_true]
      rw [capBodies, List.mem_filterMap] at hmem
      obtain ⟨x, hx, hbx⟩ := hmem
      exact ⟨x, hx, by rw [hbx]; decide⟩
    rw [device_handle_capabilities_find, if_pos hany]
  · intro name b h
    unfold capEntryMatch
    rw [h]
    simp

/-- C10: an entry with a `?` at index `k` matches any queried name whose first
`k` bytes coincide with the entry's pre-`?` prefix, even when the name goes on
past the prefix; concretely, `urn:x:y?p=1` makes the lookup of `urn:x:yz`
answer 1. -/
theorem thm_C10_capability_prefix_overmatch :
    ∀ (dh : ControllerDeviceHandle) (b name : String) (k : Nat),
      b ∈ capBodies dh → indexOfQ b.toList = some k →
      k ≤ name.toList.length → name.toList.take k = b.toList.take k →
      device_handle_capabilities_find dh name = 1 := by
  intro dh b name k hmem hq hk htake
  have hmatch : capEntryMatch name b = true := by
    rw [capEntryMatch, hq]
    exact strncmpZ_of_take_eq k name.toList b.toList hk
      (Nat.le_of_lt (indexOfQ_lt_length hq)) htake
  have hany : (xcapsChildren dh).any (fun x =>
      match xml_body x with
      | some bb => capEntryMatch name bb
      | none => false) = true := by
    rw [List.any_eq_true]
    rw [capBodies, List.mem_filterMap] at hmem
    obtain ⟨x, hx, hbx⟩ := hmem
    exact ⟨x, hx, by rw [hbx]; exact hmatch⟩
  rw [device_handle_capabilities_find, if_pos hany]

/-- A handle fixture whose capability set holds one parameterised and one plain
capability URI. -/
def capsHandle : ControllerDeviceHandle :=
  { dh0 with cdh_xcaps := some (.elem "capabilities"
      [.elem "capability" [.body "urn:x:y?p=1"],
       .elem "capability" [.body "urn:plain"]]) }

/-- Witness for C8. -/
theorem thm_C8_witness :
    device_handle_capabilities_find capsHandle "urn:x:y" = 1 ∧
    (capEntryMatch "urn:a" "urn:plain" = true ↔ ("urn:a" : String) = "urn:plain") :=
  ⟨thm_C8_capability_prefix_lookup.1 capsHandle (by decide),
   thm_C8_capability_prefix_lookup.2 "urn:a" "urn:plain" (by decide)⟩

/-- Witness for C10: `urn:x:yz` matches the entry `urn:x:y?p=1` because only
the 7 pre-`?` bytes are compared. -/
theorem thm_C10_witness :
    device_handle_capabilities_find capsHandle "urn:x:yz" = 1 :=
  thm_C10_capability_prefix_overmatch capsHandle "urn:x:y?p=1" "urn:x:yz" 7
    (by decide) (by decide) (by decide) (by decide)

/-! ## Store lemmas (C9) -/

/-- C9: in a store with pairwise-distinct live names, every member handle is
found by its own name (same handle), and after removing it a lookup by that
name reports absent. -/
theorem thm_C9_find_name_and_remove (store : List ControllerDeviceHandle)
    (h : ControllerDeviceHandle) (hmem : h ∈ store)
    (huniq : store.Pairwise (fun a b => a.cdh_name ≠ b.cdh_name)) :
    device_handle_find store h.cdh_name = some h ∧
    device_handle_find (device_handle_free store h) h.cdh_name = none := by
  induction store with
  | nil => cases hmem
  | cons c cs ih =>
    rcases List.mem_cons.mp hmem with rfl | htl
    · constructor
      · rw [device_handle_find, List.find?_cons_of_pos _ (by simp)]
      · rw [device_handle_free, if_pos rfl]
        rw [device_handle_find, List.find?_eq_none]
        intro x hx
        have hne := (List.pairwise_cons.mp huniq).1 x hx
        simp only [beq_iff_eq]
        exact fun e => hne e.symm
    · have hne : c.cdh_name ≠ h.cdh_name :=
        (List.pairwise_cons.mp huniq).1 h htl
      obtain ⟨ih1, ih2⟩ := ih htl (List.pairwise_cons.mp huniq).2
      constructor
      · rw [device_handle_find, List.find?_cons_of_neg _ (by simp [hne])]
        exact ih1
      · rw [device_handle_free, if_neg (fun e => hne (by rw [e]))]
        rw [device_handle_find, List.find?_cons_of_neg _ (by simp [hne])]
        exact ih2

/-- A two-handle store fixture. -/
def storeTwo : List ControllerDeviceHandle :=
  [device_handle_new "d1", device_handle_new "d2"]

/-- Witness for C9. -/
theorem thm_C9_witness :
    device_handle_find storeTwo (device_handle_new "d1").cdh_name =
      some (device_handle_new "d1") ∧
    device_handle_find (device_handle_free storeTwo (device_handle_new "d1"))
      (device_handle_new "d1").cdh_name = none :=
  thm_C9_find_name_and_remove storeTwo (device_handle_new "d1")
    (by decide) (by decide)

/-! ## Mount-point schema provider (`controller_cli_yang_mount`)

The backend fetch `clicon_rpc_get2` and the XPath engine `xpath_first` are
external collaborators, passed as oracles.  The static `int recursion` counter
is threaded as input/output; each issued fetch records the counter value in
effect while it runs (entry value + 1, since the increment and the decrement
bracket the call on both its outcomes). -/

inductive MountResult : Type where
  | err
  | ok (yanglib : Option Cxobj)
deriving DecidableEq

structure MountOut : Type where
  res : MountResult
  recur : Nat
  fetches : List Nat
deriving DecidableEq

/-- The device-tree path searched for with `strstr`. -/
def devTreePath : List Char := "/devices/device".toList

/-- The module-set XPath appended to the device suffix in the same `cbuf`. -/
def yanglibSuffixPath : List Char :=
  "/yanglib:yang-library/yanglib:module-set[yanglib:name='mount']".toList

/-- The fault-detection XPath. -/
def rpcErrPath : List Char := "/rpc-error".toList

/-- Model of `controller_cli_yang_mount`.  `res = .ok none` covers both the
"no schema" and the "unknown" outcomes (retval 0 with `*yanglib` untouched);
`res = .err` is retval −1.  The `config`/`vallevel` side-channel outputs are
not modelled (never written by the source). -/
def controller_cli_yang_mount
    (fetch : List Char → Except Unit Cxobj)
    (xpathFirst : Cxobj → List Char → Option Cxobj)
    (recursion : Nat) (xpath : List Char) : MountOut :=
  if recursion ≠ 0 then ⟨.ok none, recursion, []⟩
  else
    match strstr xpath devTreePath with
    | none => ⟨.ok none, recursion, []⟩
    | some str =>
      match fetch str with
      | .error _ => ⟨.err, recursion, [recursion + 1]⟩
      | .ok xt =>
        if (xpathFirst xt rpcErrPath).isSome then ⟨.err, recursion, [recursion + 1]⟩
        else
          match xpathFirst xt (str ++ yanglibSuffixPath) with
          | none => ⟨.ok none, recursion, [recursion + 1]⟩
          | some xmodset =>
            ⟨.ok (some (.elem "yang-library" [xmodset])), recursion, [recursion + 1]⟩

/-- C3: the recursion counter returns to its entry value on every return path
(the increment/decrement bracket the fetch, including the fetch's error path),
and a call entered with a non-zero counter returns "unknown" immediately
without any fetch. -/
theorem thm_C3_recursion_counter_restored
    (fetch : List Char → Except Unit Cxobj)
    (xpathFirst : Cxobj → List Char → Option Cxobj)
    (recursion : Nat) (xpath : List Char) :
    (controller_cli_yang_mount fetch xpathFirst recursion xpath).recur = recursion ∧
    (recursion ≠ 0 →
      controller_cli_yang_mount fetch xpathFirst recursion xpath =
        ⟨.ok none, recursion, []⟩) := by
  constructor
  · unfold controller_cli_yang_mount
    by_cases h : recursion ≠ 0
    · rw [if_pos h]
    · rw [if_neg h]
      split
      · rfl
      · split
        · rfl
        · split
          · rfl
          · split
            · rfl
            · rfl
  · intro h
    unfold controller_cli_yang_mount
    rw [if_pos h]

/-- A fetch oracle that always faults. -/
def fetchFail : List Char → Except Unit Cxobj := fun _ => .error ()

/-- An XPath oracle that never finds anything. -/
def xpNone : Cxobj → List Char → Option Cxobj := fun _ _ => none

/-- Witness for C3: a reentrant call (counter 1) returns "unknown" with no
fetch, and the counter is restored on a counter-0 call that faults. -/
theorem thm_C3_witness :
    controller_cli_yang_mount fetchFail xpNone 1 devTreePath =
      ⟨.ok none, 1, []⟩ ∧
    (controller_cli_yang_mount fetchFail xpNone 0 devTreePath).recur = 0 :=
  ⟨(thm_C3_recursion_counter_restored fetchFail xpNone 1 devTreePath).2 (by decide),
   (thm_C3_recursion_counter_restored fetchFail xpNone 0 devTreePath).1⟩

/-- An XPath not rooted under the device tree that nevertheless contains
`/devices/device` as a substring. -/
def cxXPath : List Char := "/rpc-reply/devices/device".toList

/-- Counterexample to C2 as stated: this mount-point XPath is not rooted under
`/devices/device` (not a prefix), yet the provider issues one configuration
fetch — the source tests `strstr`, i.e. substring occurrence, not rootedness. -/
theorem thm_C2_counterexample :
    devTreePath.isPrefixOf cxXPath = false ∧
    (controller_cli_yang_mount fetchFail xpNone 0 cxXPath).fetches.length = 1 ∧
    (controller_cli_yang_mount fetchFail xpNone 0 cxXPath).res ≠ .ok none := by
  decide

/-- C2 (amended): whenever `/devices/device` does not occur as a substring of
the mount-point XPath, the provider returns "no schema" with no fetch and the
counter untouched. -/
theorem thm_C2_no_substring_no_fetch
    (fetch : List Char → Except Unit Cxobj)
    (xpathFirst : Cxobj → List Char → Option Cxobj)
    (recursion : Nat) (xpath : List Char)
    (h : strstr xpath devTreePath = none) :
    controller_cli_yang_mount fetch xpathFirst recursion xpath =
      ⟨.ok none, recursion, []⟩ := by
  unfold controller_cli_yang_mount
  by_cases hr : recursion ≠ 0
  · rw [if_pos hr]
  · rw [if_neg hr, h]

/-- An XPath with no `/devices/device` occurrence. -/
def benignXPath : List Char := "/rpc-reply/data/x".toList

/-- Witness for the amended C2. -/
theorem thm_C2_witness :
    controller_cli_yang_mount fetchFail xpNone 0 benignXPath =
      ⟨.ok none, 0, []⟩ :=
  thm_C2_no_substring_no_fetch fetchFail xpNone 0 benignXPath (by decide)

/-! ## Grammar parse trees and `pt_eq1` (C4)

A cligen parse-tree top level is a vector of possibly-NULL `cg_obj` pointers.
`cg_obj` and the external deep comparator `co_eq` are abstracted: nodes carry
an identifier and `co_eq` answers 0 exactly on equal nodes (only zero versus
non-zero is consumed by the embedded code). -/

structure CgObj : Type where
  id : Nat
deriving DecidableEq

abbrev ParseTree := List (Option CgObj)

def pt_len_get (pt : ParseTree) : Nat := pt.length

/-- Model of `pt_vec_i_get`; an out-of-range read (possible in the source when
`pt2` is shorter than `pt1`, which C leaves undefined) is modelled as NULL. -/
def pt_vec_i_get (pt : ParseTree) (i : Nat) : Option CgObj := pt.getD i none

/-- Abstraction of cligen's `co_eq`: 0 exactly on equal nodes. -/
def co_eq (co1 co2 : CgObj) : Int := if co1 = co2 then 0 else 1

/-- The comparison loop of `pt_eq1`, iterating `i` over `pt1`'s entries and
reading `pt2` at the same index; stops at the first difference. -/
def ptEqLoop (pt2 : ParseTree) : Nat → List (Option CgObj) → Int
  | _, [] => 0
  | i, co1 :: rest =>
    match co1, pt_vec_i_get pt2 i with
    | none, none => ptEqLoop pt2 (i + 1) rest
    | none, some _ => -1
    | some _, none => 1
    | some c1, some c2 =>
      if co_eq c1 c2 = 0 then ptEqLoop pt2 (i + 1) rest else co_eq c1 c2

/-- Model of `pt_eq1`.  The source computes
`eq = ptlen - pt_len_get(pt1)` — both operands read `pt1` (`pt2` is never
measured), so `eq` is always 0 and the loop runs regardless of the lengths;
the embedding keeps that expression as written. -/
def pt_eq1 (pt1 pt2 : ParseTree) : Int :=
  let ptlen := pt_len_get pt1
  let eq0 : Int := (ptlen : Int) - (pt_len_get pt1 : Int)
  if eq0 = 0 then ptEqLoop pt2 0 pt1 else eq0

/-- A concrete grammar node fixture. -/
def cgA : CgObj := ⟨0⟩

/-- C4 (code bug): `pt_eq1` reports the empty top level and a one-entry top
level as equal (returns 0) although their lengths differ, because the length
comparison subtracts `pt_len_get(pt1)` from itself instead of measuring `pt2`. -/
theorem thm_C4_pt_eq1_length_bug :
    pt_eq1 [] [some cgA] = 0 ∧
    pt_len_get ([] : ParseTree) ≠ pt_len_get [some cgA] := by
  decide

/-! ## Shared yang-spec interner (C5)

`device_shared_yspec_xml` reuses the spec of the first other device whose
`config/yang-library` tree is tree-equal and whose name already maps to a
compiled spec (`controller_mount_yspec_get`); only when the scan fails is a
fresh spec allocated (`yspec_new`).  Specs are modelled by numeric identities;
`controller_mount_yspec_get`/`_set` (defined in the controller library outside
`src/`) are modelled as an association list from device name to spec id; the
module parsing `yang_lib2yspec` populates a spec in place and does not affect
identity.  The source guards the sharing scan with the build-time switch
`SHARED_PROFILE_YSPEC`; per the specification sharing is the default, and the
ifdef-enabled branch is the one embedded. -/

structure CliDevice : Type where
  name : String
  yanglib : Option Cxobj
deriving DecidableEq

structure YspecState : Type where
  assign : List (String × Nat)
  refcnt : List (Nat × Nat)
  next : Nat
deriving DecidableEq

def yspecInit : YspecState := ⟨[], [], 0⟩

/-- Model of `controller_mount_yspec_get`. -/
def controller_mount_yspec_get (st : YspecState) (dev : String) : Option Nat :=
  (st.assign.find? (fun p => p.1 == dev)).map (fun p => p.2)

/-- Model of `controller_mount_yspec_set`. -/
def controller_mount_yspec_set (st : YspecState) (dev : String) (id : Nat) :
    YspecState :=
  { st with assign := st.assign ++ [(dev, id)] }

/-- Model of `yang_ref_inc` (sharing increments the refcount). -/
def yang_ref_inc (st : YspecState) (id : Nat) : YspecState :=
  { st with refcnt := st.refcnt.map (fun p => if p.1 = id then (p.1, p.2 + 1) else p) }

/-- Model of `yspec_new`: a fresh spec with refcount 1. -/
def yspec_new (st : YspecState) : Nat × YspecState :=
  (st.next, { st with refcnt := st.refcnt ++ [(st.next, 1)], next := st.next + 1 })

/-- One iteration of the scan in `device_shared_yspec_xml`: skip the device
itself (by name), skip devices without a `config/yang-library`, skip trees that
are not tree-equal, and answer the device's spec when one exists. -/
def sharedProbe (name0 : String) (y0 : Cxobj) (st : YspecState) (e : CliDevice) :
    Option Nat :=
  if e.name = name0 then none
  else
    match e.yanglib with
    | none => none
    | some y => if y = y0 then controller_mount_yspec_get st e.name else none

/-- Model of `device_shared_yspec_xml` (the `SHARED_PROFILE_YSPEC` branch):
reuse the first matching other device's spec, incrementing its refcount, else
allocate a fresh one. -/
def device_shared_yspec_xml (xdevs : List CliDevice) (name0 : String)
    (xyanglib0 : Cxobj) (st : YspecState) : Nat × YspecState :=
  match xdevs.findSome? (sharedProbe name0 xyanglib0 st) with
  | some id => (id, yang_ref_inc st id)
  | none => yspec_new st

/-- Model of `create_autocli_mount_tree` (spec bookkeeping): keep an existing
spec; otherwise consult the interner and record the association.  The local
module parsing (`yang_lib2yspec`) populates the spec and is identity-neutral. -/
def create_autocli_mount_tree (xdevs0 : List CliDevice) (xdev : CliDevice)
    (xyanglib : Cxobj) (st : YspecState) : Nat × YspecState :=
  match controller_mount_yspec_get st xdev.name with
  | some id => (id, st)
  | none =>
    ((device_shared_yspec_xml xdevs0 xdev.name xyanglib st).1,
     controller_mount_yspec_set (device_shared_yspec_xml xdevs0 xdev.name xyanglib st).2
       xdev.name (device_shared_yspec_xml xdevs0 xdev.name xyanglib st).1)

/-- One grammar-generation step for a named device, as driven by
`controller_cligen_gentree_all`/`controller_cligen_treeref_wrap`: the device's
yang-library is taken from the backend device list. -/
def gentree_step (devices : List CliDevice) (st : YspecState) (devname : String) :
    YspecState :=
  match devices.find? (fun d => d.name == devname) with
  | some d =>
    match d.yanglib with
    | some y => (create_autocli_mount_tree devices d y st).2
    | none => st
  | none => st

/-- The sharing invariant: tree-equal inventories of compiled devices map to
the same spec identity. -/
def ShareInv (devices : List CliDevice) (st : YspecState) : Prop :=
  ∀ a b : CliDevice, a ∈ devices → b ∈ devices →
    a.yanglib.isSome = true → a.yanglib = b.yanglib →
    (controller_mount_yspec_get st a.name).isSome = true →
    (controller_mount_yspec_get st b.name).isSome = true →
    controller_mount_yspec_get st a.name = controller_mount_yspec_get st b.name

theorem exists_of_findSome_some {α β : Type _} {f : α → Option β} :
    ∀ {l : List α} {b : β}, l.findSome? f = some b → ∃ a, a ∈ l ∧ f a = some b := by
  intro l
  induction l with
  | nil => intro b h; exact absurd h (by simp)
  | cons x xs ih =>
    intro b h
    cases hf : f x with
    | some v =>
      have hv : List.findSome? f (x :: xs) = some v := by
        rw [List.findSome?_cons, hf]
      rw [hv] at h
      exact ⟨x, List.mem_cons_self x xs, by rw [hf, h]⟩
    | none =>
      have hv : List.findSome? f (x :: xs) = List.findSome? f xs := by
        rw [List.findSome?_cons, hf]
      rw [hv] at h
      obtain ⟨a, ha, hfa⟩ := ih h
      exact ⟨a, List.mem_cons_of_mem x ha, hfa⟩

theorem sharedProbe_some {name0 : String} {y0 : Cxobj} {st : YspecState}
    {e : CliDevice} {id : Nat} (h : sharedProbe name0 y0 st e = some id) :
    e.name ≠ name0 ∧ e.yanglib = some y0 ∧
      controller_mount_yspec_get st e.name = some id := by
  unfold sharedProbe at h
  by_cases h1 : e.name = name0
  · rw [if_pos h1] at h
    exact absurd h (by simp)
  · rw [if_neg h1] at h
    cases hy : e.yanglib with
    | none =>
      simp only [hy] at h
      exact absurd h (by simp)
    | some y =>
      simp only [hy] at h
      by_cases h2 : y = y0
      · rw [if_pos h2] at h
        exact ⟨h1, by rw [h2], h⟩
      · rw [if_neg h2] at h
        exact absurd h (by simp)

theorem sharedProbe_of_qualified {name0 : String} {y0 : Cxobj} {st : YspecState}
    {c : CliDevice} {idc : Nat} (h1 : c.name ≠ name0) (h2 : c.yanglib = some y0)
    (h3 : controller_mount_yspec_get st c.name = some idc) :
    sharedProbe name0 y0 st c = some idc := by
  unfold sharedProbe
  rw [if_neg h1]
  simp only [h2]
  simpa using h3

theorem cliDevice_name_inj {devices : List CliDevice}
    (huniq : devices.Pairwise (fun u v => u.name ≠ v.name))
    {a b : CliDevice} (ha : a ∈ devices) (hb : b ∈ devices)
    (hn : a.name = b.name) : a = b := by
  induction devices with
  | nil => cases ha
  | cons c cs ih =>
    obtain ⟨hhd, htl⟩ := List.pairwise_cons.mp huniq
    rcases List.mem_cons.mp ha with rfl | ha2
    · rcases List.mem_cons.mp hb with rfl | hb2
      · rfl
      · exact absurd hn (hhd b hb2)
    · rcases List.mem_cons.mp hb with rfl | hb2
      · exact absurd hn.symm (hhd a ha2)
      · exact ih htl ha2 hb2

theorem shared_assign_get (xdevs : List CliDevice) (name0 : String)
    (y : Cxobj) (st : YspecState) (x : String) :
    controller_mount_yspec_get (device_shared_yspec_xml xdevs name0 y st).2 x =
      controller_mount_yspec_get st x := by
  unfold device_shared_yspec_xml
  split
  · rfl
  · rfl

theorem yspec_get_set_same {st : YspecState} {d : String} {id : Nat}
    (h : controller_mount_yspec_get st d = none) :
    controller_mount_yspec_get (controller_mount_yspec_set st d id) d = some id := by
  unfold controller_mount_yspec_get at h ⊢
  rw [Option.map_eq_none'] at h
  simp only [controller_mount_yspec_set]
  rw [List.find?_append, h]
  simp [List.find?]

theorem yspec_get_set_other {st : YspecState} {d : String} {id : Nat}
    {x : String} (h : x ≠ d) :
    controller_mount_yspec_get (controller_mount_yspec_set st d id) x =
      controller_mount_yspec_get st x := by
  unfold controller_mount_yspec_get
  simp only [controller_mount_yspec_set]
  rw [List.find?_append]
  cases hf : st.assign.find? (fun p => p.1 == x) with
  | some p => simp [hf]
  | none =>
    have hdx : (d == x) = false := by
      simp only [beq_eq_false_iff_ne, ne_eq]
      exact fun e => h e.symm
    simp [hf, List.find?, hdx]

/-- If some other tree-equal device is already compiled, the interner answers
that device's spec id (never a fresh one), and sharing makes it agree with
every compiled tree-equal device. -/
theorem shared_picks_existing (devices : List CliDevice)
    (st : YspecState) (hinv : ShareInv devices st)
    (d c : CliDevice) (hc : c ∈ devices)
    (y : Cxobj) (hcy : c.yanglib = some y)
    (hne : c.name ≠ d.name) (idc : Nat)
    (hgc : controller_mount_yspec_get st c.name = some idc) :
    (device_shared_yspec_xml devices d.name y st).1 = idc := by
  cases hfs : devices.findSome? (sharedProbe d.name y st) with
  | none =>
    rw [List.findSome?_eq_none_iff] at hfs
    have hprobe := hfs c hc
    rw [sharedProbe_of_qualified hne hcy hgc] at hprobe
    exact absurd hprobe (by simp)
  | some id0 =>
    simp only [device_shared_yspec_xml, hfs]
    obtain ⟨e, he_mem, he_probe⟩ := exists_of_findSome_some hfs
    obtain ⟨hen, hey, heg⟩ := sharedProbe_some he_probe
    have hagree := hinv e c he_mem hc (by rw [hey]; rfl) (by rw [hey, hcy])
      (by rw [heg]; rfl) (by rw [hgc]; rfl)
    rw [heg, hgc] at hagree
    exact Option.some.inj hagree

/-- One grammar-generation step preserves the sharing invariant. -/
theorem gentree_step_preserves (devices : List CliDevice)
    (huniq : devices.Pairwise (fun u v => u.name ≠ v.name))
    (st : YspecState) (hinv : ShareInv devices st) (devname : String) :
    ShareInv devices (gentree_step devices st devname) := by
  cases hfd : devices.find? (fun d => d.name == devname) with
  | none =>
    simp only [gentree_step, hfd]
    exact hinv
  | some d =>
    cases hdy : d.yanglib with
    | none =>
      simp only [gentree_step, hfd, hdy]
      exact hinv
    | some y =>
      cases hgd : controller_mount_yspec_get st d.name with
      | some id0 =>
        simp only [gentree_step, hfd, hdy, create_autocli_mount_tree, hgd]
        exact hinv
      | none =>
        simp only [gentree_step, hfd, hdy, create_autocli_mount_tree, hgd]
        have hd_mem : d ∈ devices := List.mem_of_find?_eq_some hfd
        have hget_other : ∀ x, x ≠ d.name →
            controller_mount_yspec_get
              (controller_mount_yspec_set
                (device_shared_yspec_xml devices d.name y st).2 d.name
                (device_shared_yspec_xml devices d.name y st).1) x =
              controller_mount_yspec_get st x := by
          intro x hx
          rw [yspec_get_set_other hx, shared_assign_get]
        have hget_same :
            controller_mount_yspec_get
              (controller_mount_yspec_set
                (device_shared_yspec_xml devices d.name y st).2 d.name
                (device_shared_yspec_xml devices d.name y st).1) d.name =
              some (device_shared_yspec_xml devices d.name y st).1 := by
          apply yspec_get_set_same
          rw [shared_assign_get]
          exact hgd
        intro a b ha hb hay hsame hga hgb
        by_cases hab : a.name = b.name
        · rw [hab]
        · by_cases haD : a.name = d.name
          · obtain rfl : a = d := cliDevice_name_inj huniq ha hd_mem haD
            have hbD : b.name ≠ a.name := fun e => hab e.symm
            rw [hget_other b.name hbD] at hgb
            obtain ⟨idb, hidb⟩ := Option.isSome_iff_exists.mp hgb
            rw [hget_same, hget_other b.name hbD, hidb]
            have hby : b.yanglib = some y := by
              rw [← hsame, hdy]
            have := shared_picks_existing devices st hinv a b hb y hby hbD idb hidb
            rw [this]
          · by_cases hbD : b.name = d.name
            · obtain rfl : b = d := cliDevice_name_inj huniq hb hd_mem hbD
              rw [hget_other a.name haD] at hga
              obtain ⟨ida, hida⟩ := Option.isSome_iff_exists.mp hga
              rw [hget_same, hget_other a.name haD, hida]
              have hay2 : a.yanglib = some y := by
                obtain ⟨ya, hya⟩ := Option.isSome_iff_exists.mp hay
                rw [hya] at hsame ⊢
                rw [hdy] at hsame
                rw [Option.some.inj hsame]
              have := shared_picks_existing devices st hinv b a ha y hay2 haD ida hida
              rw [this]
            · rw [hget_other a.name haD] at hga
              rw [hget_other b.name hbD] at hgb
              rw [hget_other a.name haD, hget_other b.name hbD]
              exact hinv a b ha hb hay hsame hga hgb

/-- C5: starting from the empty spec table, any sequence of grammar-generation
steps keeps tree-equal compiled devices on one shared spec identity: the
interner is consulted before any fresh spec is allocated, and a fresh spec
arises only when no tree-equal device has one. -/
theorem thm_C5_shared_yspec_invariant (devices : List CliDevice)
    (steps : List String)
    (huniq : devices.Pairwise (fun u v => u.name ≠ v.name))
    (a b : CliDevice) (ha : a ∈ devices) (hb : b ∈ devices)
    (hay : a.yanglib.isSome = true) (hsame : a.yanglib = b.yanglib)
    (hga : (controller_mount_yspec_get
      (steps.foldl (gentree_step devices) yspecInit) a.name).isSome = true)
    (hgb : (controller_mount_yspec_get
      (steps.foldl (gentree_step devices) yspecInit) b.name).isSome = true) :
    controller_mount_yspec_get
        (steps.foldl (gentree_step devices) yspecInit) a.name =
      controller_mount_yspec_get
        (steps.foldl (gentree_step devices) yspecInit) b.name := by
  have base : ShareInv devices yspecInit := by
    intro a b _ _ _ _ hga _
    exact absurd hga (by simp [controller_mount_yspec_get, yspecInit])
  have main : ∀ (l : List String) (st : YspecState), ShareInv devices st →
      ShareInv devices (l.foldl (gentree_step devices) st) := by
    intro l
    induction l with
    | nil => intro st h; exact h
    | cons sname ss ih =>
      intro st h
      exact ih _ (gentree_step_preserves devices huniq st h sname)
  exact main steps yspecInit base a b ha hb hay hsame hga hgb

/-- Two concrete devices with tree-equal inventories. -/
def devA : CliDevice := ⟨"d1", some msGood⟩

def devB : CliDevice := ⟨"d2", some msGood⟩

def devListC : List CliDevice := [devA, devB]

/-- The spec table after generating grammars for both devices. -/
def stC : YspecState :=
  (["d1", "d2"] : List String).foldl (gentree_step devListC) yspecInit

/-- Witness for C5: after compiling both devices, their spec identities agree. -/
theorem thm_C5_witness :
    controller_mount_yspec_get stC devA.name =
      controller_mount_yspec_get stC devB.name :=
  thm_C5_shared_yspec_invariant devListC ["d1", "d2"] (by decide)
    devA devB (by decide) (by decide) (by decide) (by decide)
    (by decide) (by decide)

/-! ## Grammar reference resolver (`controller_cligen_treeref_wrap`, C1)

The cligen runtime's name → parse-tree table (`cligen_ph_find` /
`cligen_ph_add` / `cligen_ph_parsetree_get`) is carried as an association
list; the backend device queries (`rpc_get_yanglib_mount_match`, shallow and
full) are the oracle lists `xdevs0`/`xdevs1`; the grammar produced by the
external `yang2cli_yspec` for a given spec identity is the oracle `gen`.
`cvvEditName` is the string value of `cvec_find(cvv_edit, "name")` when the
edit context provides one. -/

/-- Model of `cligen_ph_find` followed by `cligen_ph_parsetree_get`. -/
def cligen_ph_find (phs : List (String × ParseTree)) (nm : String) :
    Option ParseTree :=
  (phs.find? (fun p => p.1 == nm)).map (fun p => p.2)

/-- The token scan: find the literal `device` in the token vector and take the
token after it (`cvec_next`). -/
def tokenAfterDevice : List String → Option String
  | [] => none
  | t :: ts => if t = "device" then ts.head? else tokenAfterDevice ts

/-- The per-device loop of `controller_cligen_treeref_wrap`: skip non-matching
names; remember the first matching tree name; generate a missing grammar
(spec bookkeeping via `create_autocli_mount_tree`, installed tree from `gen`);
compare every later tree against the first with `pt_eq1`, counting mismatches.
A missing `firsttree` header at comparison time would dereference NULL in C;
the model reads an empty parse tree. -/
def treerefLoop (xdevs1 : List CliDevice) (gen : Nat → ParseTree) (pat : String)
    (firsttree : Option String) (nmcount : Nat)
    (phs : List (String × ParseTree)) (st : YspecState) :
    List CliDevice → Option String × Nat × List (String × ParseTree) × YspecState
  | [] => (firsttree, nmcount, phs, st)
  | d :: rest =>
    if fnmatchB pat.toList d.name.toList then
      let newtree := "mountpoint-" ++ d.name
      let ft := match firsttree with
        | some f => f
        | none => newtree
      match cligen_ph_find phs newtree with
      | some pt1 =>
        if ft ≠ newtree then
          if pt_eq1 ((cligen_ph_find phs ft).getD []) pt1 ≠ 0 then
            treerefLoop xdevs1 gen pat (some ft) (nmcount + 1) phs st rest
          else
            treerefLoop xdevs1 gen pat (some ft) nmcount phs st rest
        else
          treerefLoop xdevs1 gen pat (some ft) nmcount phs st rest
      | none =>
        match xdevs1.find? (fun e => e.name == d.name) with
        | none => treerefLoop xdevs1 gen pat (some ft) nmcount phs st rest
        | some d1 =>
          match d1.yanglib with
          | none => treerefLoop xdevs1 gen pat (some ft) nmcount phs st rest
          | some ylib =>
            let cres := create_autocli_mount_tree xdevs1 d1 ylib st
            let newpt := gen cres.1
            let phs2 := phs ++ [(newtree, newpt)]
            if ft ≠ newtree then
              if pt_eq1 ((cligen_ph_find phs2 ft).getD []) newpt ≠ 0 then
                treerefLoop xdevs1 gen pat (some ft) (nmcount + 1) phs2 cres.2 rest
              else
                treerefLoop xdevs1 gen pat (some ft) nmcount phs2 cres.2 rest
            else
              treerefLoop xdevs1 gen pat (some ft) nmcount phs2 cres.2 rest
    else
      treerefLoop xdevs1 gen pat firsttree nmcount phs st rest

/-- Model of `controller_cligen_treeref_wrap`.  Return value: the source sets
`retval = 1` after the loop on BOTH output paths — with the first tree's name
in `namep` when all matched trees were equal, and with `namep` left unset
(modelled `none`) after installing the dummy tree; the dummy-presence check
looks up the name `mointpoint` while the tree is added as `mountpoint`, as in
the source.  Retval 0 ("leave reference as is") is produced only by the early
exits. -/
def controller_cligen_treeref_wrap
    (xdevs0 xdevs1 : List CliDevice) (gen : Nat → ParseTree)
    (cvvEditName : Option String) (name : String) (cvt : List String)
    (phs : List (String × ParseTree)) (st : YspecState) :
    Int × Option String × List (String × ParseTree) × YspecState :=
  if name ≠ "mountpoint" then (0, none, phs, st)
  else
    match (match cvvEditName with
           | some v => some v
           | none => tokenAfterDevice cvt) with
    | none => (0, none, phs, st)
    | some pattern =>
      match treerefLoop xdevs1 gen pattern none 0 phs st xdevs0 with
      | (firsttree, nmcount, phs2, st2) =>
        match firsttree with
        | some ft =>
          if nmcount = 0 then (1, some ft, phs2, st2)
          else if (cligen_ph_find phs2 "mointpoint").isSome then (1, none, phs2, st2)
          else (1, none, phs2 ++ [("mountpoint", [])], st2)
        | none =>
          if (cligen_ph_find phs2 "mointpoint").isSome then (1, none, phs2, st2)
          else (1, none, phs2 ++ [("mountpoint", [])], st2)

instance decEqPhsSt : DecidableEq (List (String × ParseTree) × YspecState) :=
  instDecidableEqProd

instance decEqNamePhsSt :
    DecidableEq (Option String × List (String × ParseTree) × YspecState) :=
  instDecidableEqProd

instance decEqWrapRet :
    DecidableEq (Int × Option String × List (String × ParseTree) × YspecState) :=
  instDecidableEqProd

/-- A second concrete grammar node, different from `cgA`. -/
def cgB : CgObj := ⟨1⟩

/-- A grammar oracle producing empty trees (unused in the C1 scenario, where
both grammars are pre-installed). -/
def genEmpty : Nat → ParseTree := fun _ => []

/-- The shallow device list for the C1 scenario. -/
def xdevs0C1 : List CliDevice := [⟨"d1", none⟩, ⟨"d2", none⟩]

/-- The grammar runtime for the C1 scenario: both matched devices' grammars
installed, with unequal top levels. -/
def phsC1 : List (String × ParseTree) :=
  [("mountpoint-d1", [some cgA]), ("mountpoint-d2", [some cgB])]

/-- C1 (code bug): with two matching devices whose grammar top levels differ,
the resolver returns 1 — not 0 as the claim (and the function's own header,
which ties retval 1 to a name in `namep`) requires — leaving the name output
unset while installing the empty `mountpoint` grammar; and because the
presence check uses the misspelled name `mointpoint`, a second invocation
installs a second `mountpoint` tree instead of finding the first. -/
theorem thm_C1_treeref_wrap_mismatch :
    pt_eq1 [some cgA] [some cgB] ≠ 0 ∧
    controller_cligen_treeref_wrap xdevs0C1 [] genEmpty none "mountpoint"
        ["device", "d*"] phsC1 yspecInit =
      (1, none, phsC1 ++ [("mountpoint", [])], yspecInit) ∧
    controller_cligen_treeref_wrap xdevs0C1 [] genEmpty none "mountpoint"
        ["device", "d*"] (phsC1 ++ [("mountpoint", [])]) yspecInit =
      (1, none, (phsC1 ++ [("mountpoint", [])]) ++ [("mountpoint", [])], yspecInit) := by
  decide
